import Mathlib

/-!
# Verification of the Primate-StuPy revision controller

Shallow embedding of the repository's patch-application engine
(`github_api.py`), deployment poller (`railway_api.py`), revision
controller loop (`main.py`) and configuration constants (`config.py`),
together with proofs of the specification's claims about them.

Strings are modelled by Lean `String`; Python's `content.split('\n')`
and `'\n'.join(lines)` are embedded as character-level functions
`splitNl` / `joinNl` below, which compute exactly the same values.
Python line numbers coming from JSON are modelled as `Int` (they may be
negative or out of range; the code guards for that explicitly).
-/

/-- Split a character list at every newline character.  The result is
never empty: an empty input yields one empty group, exactly like
Python's `''.split('\n') == ['']`. -/
def splitNlChars : List Char → List (List Char)
  | [] => [[]]
  | c :: cs =>
    match splitNlChars cs with
    | [] => [[c]]
    | g :: gs => if c = '\n' then [] :: g :: gs else (c :: g) :: gs

/-- Join character-list groups with a newline character, the inverse of
`splitNlChars` (Python's `'\n'.join`). -/
def joinNlChars : List (List Char) → List Char
  | [] => []
  | [g] => g
  | g :: gs => g ++ '\n' :: joinNlChars gs

/-- Python `content.split('\n')` on a Lean `String`. -/
def splitNl (s : String) : List String :=
  (splitNlChars s.data).map String.mk

/-- Python `'\n'.join(lines)` on Lean `String`s. -/
def joinNl (l : List String) : String :=
  String.mk (joinNlChars (l.map String.data))

/-- `github_api.py` line 125: `lines = content.split('\n') if content
else []` — the empty string denotes the empty line sequence. -/
def splitLines (content : String) : List String :=
  if content = "" then [] else splitNl content

/-- One operation as produced by the oracle's JSON: a free-form
`operation` kind string plus the fields the four known kinds use
(`file`, `line`, `content`).  Unknown kind strings model malformed
operations flowing in from `deepseek_api._parse_instructions`, which
performs no shape validation. -/
structure Instr where
  operation : String
  file : String
  line : Int
  content : String
deriving DecidableEq, Repr

/-- Non-fatal diagnostics the engine logs while applying operations,
one constructor per logging branch in `github_api.py`. -/
inductive EngineWarning
  | multipleWrites (file : String)
  | invalidLineRangeInsert (file : String) (line : Int)
  | invalidLineRangeDelete (file : String) (line : Int)
  | deleteRangeExceeds (file : String) (line : Int)
  | contentMismatch (file : String) (line : Int)
deriving DecidableEq, Repr

/-- `GitHubAPI._apply_write_at_line` (github_api.py lines 166-181):
insert `content.split('\n')` before 1-based position `lineNum`; outside
the range `[1, len+1]` it is a no-op that logs a diagnostic. -/
def applyWriteAtLine (lines : List String) (lineNum : Int) (content : String)
    (filename : String) : List String × List EngineWarning :=
  if lineNum < 1 ∨ (lines.length : Int) + 1 < lineNum then
    (lines, [.invalidLineRangeInsert filename lineNum])
  else
    let contentLines := splitNl content
    (lines.take (lineNum - 1).toNat ++ contentLines ++ lines.drop (lineNum - 1).toNat, [])

/-- `GitHubAPI._apply_delete_at_line` (github_api.py lines 183-210):
delete the candidate span only when its joined text equals `content`
exactly; every failing check is a logged no-op. -/
def applyDeleteAtLine (lines : List String) (lineNum : Int) (content : String)
    (filename : String) : List String × List EngineWarning :=
  if lineNum < 1 ∨ (lines.length : Int) < lineNum then
    (lines, [.invalidLineRangeDelete filename lineNum])
  else
    let contentLines := splitNl content
    let endLine : Int := lineNum - 1 + contentLines.length
    if (lines.length : Int) < endLine then
      (lines, [.deleteRangeExceeds filename lineNum])
    else
      let actual := joinNl ((lines.drop (lineNum - 1).toNat).take contentLines.length)
      if actual = content then
        (lines.take (lineNum - 1).toNat ++ lines.drop endLine.toNat, [])
      else
        (lines, [.contentMismatch filename lineNum])

/-- Insertion of one operation into a line-number-descending list: the
new element goes past every strictly larger line number and lands
before the first less-or-equal one.  Since `sortByLineDesc` inserts the
earlier-listed elements into the already-sorted later ones, an element
placed before its equals keeps the input order on ties — the sort is
stable. -/
def insertByLineDesc (x : Instr) : List Instr → List Instr
  | [] => [x]
  | y :: ys => if y.line ≤ x.line then x :: y :: ys else y :: insertByLineDesc x ys

/-- Python's stable `list.sort(key=lambda x: x.get('line', 0),
reverse=True)` (github_api.py line 152), embedded as stable insertion
sort: equal line numbers keep their input order (in particular, the
engine's inserts stay before its deletes on ties), so this computes the
same list as Python's stable sort. -/
def sortByLineDesc (l : List Instr) : List Instr :=
  l.foldr insertByLineDesc []

/-- The body of the line-operation loop (github_api.py lines 154-162),
threading the accumulated warning list. -/
def applyLineOpStep (filename : String) (acc : List String × List EngineWarning)
    (op : Instr) : List String × List EngineWarning :=
  if op.operation = "write_at_line" then
    let r := applyWriteAtLine acc.1 op.line op.content filename
    (r.1, acc.2 ++ r.2)
  else if op.operation = "delete_at_line" then
    let r := applyDeleteAtLine acc.1 op.line op.content filename
    (r.1, acc.2 ++ r.2)
  else acc

/-- `GitHubAPI._apply_operations_to_file` (github_api.py lines
123-164), returning the final content together with the logged
non-fatal diagnostics. -/
def applyOperationsToFile (filename : String) (content : String)
    (operations : List Instr) : String × List EngineWarning :=
  let lines := splitLines content
  let writeOps := operations.filter (fun op => op.operation = "write")
  let deleteOps := operations.filter (fun op => op.operation = "delete")
  let writeAtLineOps := operations.filter (fun op => op.operation = "write_at_line")
  let deleteAtLineOps := operations.filter (fun op => op.operation = "delete_at_line")
  if h : writeOps ≠ [] then
    ((writeOps.getLast h).content,
      if 1 < writeOps.length then [.multipleWrites filename] else [])
  else if deleteOps ≠ [] then
    ("", [])
  else
    let allLineOps := sortByLineDesc (writeAtLineOps ++ deleteAtLineOps)
    let result := allLineOps.foldl (applyLineOpStep filename) (lines, [])
    (joinNl result.1, result.2)

/-! ## Configuration constants (`config.py` lines 31-34) -/

def DEPLOYMENT_CHECK_INTERVAL : Nat := 30

def MAX_DEPLOYMENT_WAIT : Nat := 600

def MAX_ITERATIONS : Nat := 10

/-! ## Deployment poller (`railway_api.py`)

`wait_for_deployment_completion` polls the platform once before its
loops and then once per loop iteration, sleeping a fixed interval after
every non-final check.  We discretise wall-clock time into ticks, one
tick per sleep, so a timeout of `MAX_DEPLOYMENT_WAIT` seconds is
`MAX_DEPLOYMENT_WAIT / DEPLOYMENT_CHECK_INTERVAL` ticks.  The platform
is modelled as a function from the poll-call index to the latest
deployment it reports, and the two log endpoints as functions from a
deployment id to the retrievable log text. -/

structure Deployment where
  id : String
  status : String
  createdAt : String
deriving DecidableEq, Repr

/-- The dict returned by `wait_for_deployment_completion`; the `id` key
is absent (`none`) in the two synthesized TIMEOUT results. -/
structure DeploymentResult where
  id : Option String
  status : String
  deployment_logs : String
  build_logs : String
deriving DecidableEq, Repr

/-- `status in ['SUCCESS', 'FAILED', 'CRASHED', 'NONE']`
(railway_api.py line 270). -/
def isTerminalStatus (s : String) : Bool :=
  ["SUCCESS", "FAILED", "CRASHED", "NONE"].contains s

/-- The monitoring loop (railway_api.py lines 259-295): compare each
freshly fetched latest deployment against the pinned id
`last_deployment['id']`; on a terminal status of the *same* id, fetch
both logs and return; otherwise keep polling until the tick budget is
exhausted, then return the synthesized TIMEOUT dict with its fixed
placeholder log strings.  The pinned id is never updated. -/
def monitorLoop (getLatest : Nat → Option Deployment)
    (dLogs bLogs : String → String) (pinnedId : String) :
    Nat → Nat → DeploymentResult
  | _, 0 =>
    ⟨none, "TIMEOUT", "Deployment monitoring timeout", "No build logs available"⟩
  | callIdx, remTicks + 1 =>
    match getLatest callIdx with
    | some d =>
      if d.id = pinnedId then
        if isTerminalStatus d.status then
          ⟨some d.id, d.status, dLogs d.id, bLogs d.id⟩
        else
          monitorLoop getLatest dLogs bLogs pinnedId (callIdx + 1) remTicks
      else
        monitorLoop getLatest dLogs bLogs pinnedId (callIdx + 1) remTicks
    | none => monitorLoop getLatest dLogs bLogs pinnedId (callIdx + 1) remTicks

/-- The initial searching loop (railway_api.py lines 231-253): poll
until some deployment appears, pin its id and hand the remaining time
to the monitoring loop (the `break` skips that iteration's sleep, so no
tick is consumed by the find); if none ever appears, return the
synthesized TIMEOUT dict for the no-deployment case. -/
def searchLoop (getLatest : Nat → Option Deployment)
    (dLogs bLogs : String → String) : Nat → Nat → DeploymentResult
  | _, 0 =>
    ⟨none, "TIMEOUT", "No deployment started within timeout period",
      "No build logs available"⟩
  | callIdx, remTicks + 1 =>
    match getLatest callIdx with
    | some d => monitorLoop getLatest dLogs bLogs d.id (callIdx + 1) (remTicks + 1)
    | none => searchLoop getLatest dLogs bLogs (callIdx + 1) remTicks

/-- `RailwayAPI.wait_for_deployment_completion` (railway_api.py lines
216-305): one initial fetch, then search or monitor under the shared
tick budget. -/
def waitForDeploymentCompletion (getLatest : Nat → Option Deployment)
    (dLogs bLogs : String → String) (maxTicks : Nat) : DeploymentResult :=
  match getLatest 0 with
  | some d => monitorLoop getLatest dLogs bLogs d.id 1 maxTicks
  | none => searchLoop getLatest dLogs bLogs 1 maxTicks

/-! ## Revision controller (`main.py` lines 51-211)

`CodingAgent.run` is a while loop over `iteration = 1 ..
MAX_ITERATIONS`.  External effects that the loop treats as opaque — the
codebase fetch, the GitHub commit batch, the deployment monitor — are
assumed to succeed (their failure branches all `break` out of the
loop); the oracle's review verdict for each iteration is abstracted as
a function of the iteration number.  One "applied iteration" is one
pass that applied its pending operation set to the store. -/

inductive ReviewOutcome
  | approved
  | revise (instructions : List Instr)
  | unknownStatus
deriving DecidableEq, Repr

inductive RunTermination
  | approvedDone
  | exhausted
  | noOperations
  | emptyRevision
  | unknownReview
deriving DecidableEq, Repr

structure RunResult where
  appliedIterations : Nat
  outcome : RunTermination
deriving DecidableEq, Repr

/-- The controller loop with `fuel = MAX_ITERATIONS + 1 - iteration`
remaining passes; `fuel = 0` is the loop condition `iteration <=
Config.MAX_ITERATIONS` failing, after which main.py lines 208-211
report that the maximum was reached (the `Exhausted` terminal state). -/
def runLoop (review : Nat → ReviewOutcome) :
    Nat → Nat → Nat → List Instr → RunResult
  | 0, _, applied, _ => ⟨applied, .exhausted⟩
  | fuel + 1, iteration, applied, pending =>
    if pending.isEmpty then ⟨applied, .noOperations⟩
    else
      match review iteration with
      | .approved => ⟨applied + 1, .approvedDone⟩
      | .revise next =>
        if next.isEmpty then ⟨applied + 1, .emptyRevision⟩
        else runLoop review fuel (iteration + 1) (applied + 1) next
      | .unknownStatus => ⟨applied + 1, .unknownReview⟩

/-- `CodingAgent.run`: iteration 1 applies the initially generated
operation set, later iterations apply the previous review's revision
set. -/
def runController (review : Nat → ReviewOutcome)
    (initialInstructions : List Instr) (maxIter : Nat) : RunResult :=
  runLoop review maxIter 1 0 initialInstructions

/-! ## Snapshot store adapter (`github_api.py` lines 86-281)

The GitHub HTTP calls are modelled as a trace of store actions: the
store itself is a function from path to the optional
`(content, sha)` pair returned by `get_file_content_and_sha`, and the
success of each commit HTTP request is a function `respOk` of the file
name. -/

inductive StoreAction
  | readFile (path : String)
  | putCreate (path content : String)
  | putUpdate (path content sha : String)
  | deleteFile (path sha : String)
deriving DecidableEq, Repr

/-- One step of the grouping loop in `process_file_operations`
(github_api.py lines 91-96); a Python dict keyed by file preserves
first-insertion order of the keys and appends within a key. -/
def addToGroups (groups : List (String × List Instr)) (i : Instr) :
    List (String × List Instr) :=
  if groups.any (fun g => g.1 = i.file) then
    groups.map (fun g => if g.1 = i.file then (g.1, g.2 ++ [i]) else g)
  else groups ++ [(i.file, [i])]

def groupByFile (instructions : List Instr) : List (String × List Instr) :=
  instructions.foldl addToGroups []

/-- One entry of the `final_files` dict (`operations` is stored by the
code but never used by the upload step, so it is omitted here). -/
structure FinalFile where
  file : String
  content : String
  sha : Option String
deriving DecidableEq, Repr

/-- `GitHubAPI.process_file_operations` (github_api.py lines 86-121):
fetch each grouped file's current content and sha (absent file means
empty starting content and `sha = none`), then run the patch engine. -/
def processFileOperations (store : String → Option (String × String))
    (instructions : List Instr) : List FinalFile :=
  (groupByFile instructions).map (fun g =>
    let fetched := store g.1
    let currentContent := (fetched.map Prod.fst).getD ""
    ⟨g.1, (applyOperationsToFile g.1 currentContent g.2).1, fetched.map Prod.snd⟩)

/-- The store interactions issued by `process_file_operations`: one
read per grouped file, and nothing else. -/
def processFileOperationsReads (instructions : List Instr) : List StoreAction :=
  (groupByFile instructions).map (fun g => .readFile g.1)

/-- One line of the `results` list built by `upload_final_files`. -/
structure UploadResult where
  success : Bool
  desc : String
deriving DecidableEq, Repr

/-- The body of the upload loop (github_api.py lines 218-260): empty
final content with a known sha issues a DELETE; empty content with no
sha issues nothing and is recorded as a failure; non-empty content
issues a PUT (update with sha, create without). -/
def uploadStep (respOk : String → Bool) (f : FinalFile) :
    List StoreAction × UploadResult :=
  if f.content = "" then
    match f.sha with
    | some sha => ([.deleteFile f.file sha], ⟨respOk f.file, "delete"⟩)
    | none => ([], ⟨false, "delete (skip)"⟩)
  else
    match f.sha with
    | some sha => ([.putUpdate f.file f.content sha], ⟨respOk f.file, "update"⟩)
    | none => ([.putCreate f.file f.content], ⟨respOk f.file, "create"⟩)

/-- `GitHubAPI.upload_final_files` (github_api.py lines 212-265). -/
def uploadFinalFiles (respOk : String → Bool) (files : List FinalFile) :
    List StoreAction × List UploadResult :=
  files.foldl (fun acc f =>
    let r := uploadStep respOk f
    (acc.1 ++ r.1, acc.2 ++ [r.2])) ([], [])

/-- The full store-action trace of `GitHubAPI.apply_instructions`
(github_api.py lines 267-281): all reads from
`process_file_operations`, then all commits from
`upload_final_files`. -/
def applyInstructionsActions (store : String → Option (String × String))
    (respOk : String → Bool) (instructions : List Instr) : List StoreAction :=
  if instructions.isEmpty then []
  else
    processFileOperationsReads instructions ++
      (uploadFinalFiles respOk (processFileOperations store instructions)).1

def isReadAction : StoreAction → Bool
  | .readFile _ => true
  | _ => false

/-- Applying one line-targeted operation on its own, used to state the
descending-order sequential-application law. -/
def applyOneLineOp (filename : String) (lines : List String) (op : Instr) :
    List String :=
  if op.operation = "write_at_line" then
    (applyWriteAtLine lines op.line op.content filename).1
  else if op.operation = "delete_at_line" then
    (applyDeleteAtLine lines op.line op.content filename).1
  else lines

/-- The exact-match condition under which `_apply_delete_at_line`
removes the candidate span: the 1-based line is in range, the span fits
inside the file, and the joined span equals the operation's content
byte for byte. -/
def deleteMatches (lines : List String) (lineNum : Int) (content : String) :
    Prop :=
  1 ≤ lineNum ∧ lineNum ≤ (lines.length : Int) ∧
    lineNum - 1 + ((splitNl content).length : Int) ≤ (lines.length : Int) ∧
    joinNl ((lines.drop (lineNum - 1).toNat).take (splitNl content).length) =
      content

instance (lines : List String) (lineNum : Int) (content : String) :
    Decidable (deleteMatches lines lineNum content) := by
  unfold deleteMatches
  exact inferInstance

/-- A store action that would create or update a file with empty
content; the upload step never issues one. -/
def isEmptyPut : StoreAction → Bool
  | .putCreate _ c => c = ""
  | .putUpdate _ c _ => c = ""
  | _ => false

/-! ## Helper lemmas -/

theorem splitNlChars_ne_nil (l : List Char) : splitNlChars l ≠ [] := by
  cases l with
  | nil => simp [splitNlChars]
  | cons c cs =>
    simp only [splitNlChars]
    cases splitNlChars cs with
    | nil => simp
    | cons g gs =>
      by_cases h : c = '\n' <;> simp [h]

theorem joinNlChars_splitNlChars (l : List Char) :
    joinNlChars (splitNlChars l) = l := by
  induction l with
  | nil => rfl
  | cons c cs ih =>
    simp only [splitNlChars]
    cases h : splitNlChars cs with
    | nil => exact absurd h (splitNlChars_ne_nil cs)
    | cons g gs =>
      rw [h] at ih
      show joinNlChars (if c = '\n' then [] :: g :: gs else (c :: g) :: gs) = c :: cs
      by_cases hc : c = '\n'
      · subst hc
        rw [if_pos rfl]
        show [] ++ '\n' :: joinNlChars (g :: gs) = '\n' :: cs
        simp [ih]
      · rw [if_neg hc]
        cases gs with
        | nil => simpa [joinNlChars] using ih
        | cons g' gs' => simpa [joinNlChars] using ih

theorem joinNl_splitNl (s : String) : joinNl (splitNl s) = s := by
  cases s with
  | mk data =>
    simp only [joinNl, splitNl, List.map_map]
    have : (String.data ∘ String.mk) = id := rfl
    rw [this, List.map_id, joinNlChars_splitNlChars]

/-- Tie-order fidelity check for the stable sort: on equal line
numbers the sorted engine order keeps the insert (listed first by the
engine's concatenation of `write_at_line_ops + delete_at_line_ops`)
before the delete, so on a one-line file `"a"` the batch applies the
insert first and the delete's exact-match guard then misses, matching
the Python engine's result `"X\na"` with one mismatch diagnostic. -/
theorem sortByLineDesc_stable_on_ties :
    sortByLineDesc [⟨"write_at_line", "f", 1, "X"⟩,
        ⟨"delete_at_line", "f", 1, "a"⟩] =
      [⟨"write_at_line", "f", 1, "X"⟩, ⟨"delete_at_line", "f", 1, "a"⟩] ∧
    applyOperationsToFile "f" "a"
      [⟨"write_at_line", "f", 1, "X"⟩, ⟨"delete_at_line", "f", 1, "a"⟩] =
      ("X\na", [.contentMismatch "f" 1]) := by
  decide

/-! ## Claims about the patch engine -/

/-- C1: for every file and every operation set containing at least one
Write operation, the engine's result equals exactly the content of the
last Write in input order; all other operations for the file (Delete,
InsertAtLine, DeleteAtLine and earlier Writes) have no effect, since the
result is fully determined by that last Write's content. -/
theorem writeWinsLast (filename content : String) (ops : List Instr)
    (h : ops.filter (fun op => op.operation = "write") ≠ []) :
    (applyOperationsToFile filename content ops).1 =
      ((ops.filter (fun op => op.operation = "write")).getLast h).content := by
  simp only [applyOperationsToFile]
  rw [dif_pos h]

/-- Witness for C1 at a concrete operation set mixing two Writes with a
Delete and a DeleteAtLine: the last Write's content is the result. -/
theorem writeWinsLast_witness :
    (applyOperationsToFile "f.py" "a\nb"
      [⟨"write", "f.py", 0, "first"⟩, ⟨"delete", "f.py", 0, ""⟩,
        ⟨"delete_at_line", "f.py", 1, "a"⟩, ⟨"write", "f.py", 0, "second"⟩]).1 =
      "second" := by
  rw [writeWinsLast "f.py" "a\nb" _ (by decide)]
  decide

theorem applyLineOpStep_fst (filename : String)
    (acc : List String × List EngineWarning) (op : Instr) :
    (applyLineOpStep filename acc op).1 = applyOneLineOp filename acc.1 op := by
  unfold applyLineOpStep applyOneLineOp
  split_ifs <;> rfl

theorem foldl_applyLineOpStep_fst (filename : String) (ops : List Instr) :
    ∀ (lines : List String) (ws : List EngineWarning),
      (ops.foldl (applyLineOpStep filename) (lines, ws)).1 =
        ops.foldl (applyOneLineOp filename) lines := by
  induction ops with
  | nil => intro lines ws; rfl
  | cons op rest ih =>
    intro lines ws
    rw [List.foldl_cons, List.foldl_cons]
    calc (List.foldl (applyLineOpStep filename)
            (applyLineOpStep filename (lines, ws) op) rest).1
        = List.foldl (applyOneLineOp filename)
            (applyLineOpStep filename (lines, ws) op).1 rest :=
          ih (applyLineOpStep filename (lines, ws) op).1
            (applyLineOpStep filename (lines, ws) op).2
      _ = List.foldl (applyOneLineOp filename)
            (applyOneLineOp filename lines op) rest := by
          rw [applyLineOpStep_fst]

/-- C2: for a file whose operation set consists only of InsertAtLine
and DeleteAtLine operations, the engine's batch result equals applying
the operations one at a time, from the highest line number down to the
lowest (the engine's descending order, which is stable on equal line
numbers with inserts grouped before deletes), starting from the
original content. -/
theorem lineOpsDescendingSequential (filename content : String)
    (ops : List Instr)
    (h : ∀ op ∈ ops, op.operation = "write_at_line" ∨
        op.operation = "delete_at_line") :
    (applyOperationsToFile filename content ops).1 =
      joinNl ((sortByLineDesc
          (ops.filter (fun op => op.operation = "write_at_line") ++
            ops.filter (fun op => op.operation = "delete_at_line"))).foldl
        (applyOneLineOp filename) (splitLines content)) := by
  have hw : ops.filter (fun op => op.operation = "write") = [] := by
    simp only [List.filter_eq_nil_iff]
    intro a ha
    rcases h a ha with h1 | h1 <;> simp [h1]
  have hd : ops.filter (fun op => op.operation = "delete") = [] := by
    simp only [List.filter_eq_nil_iff]
    intro a ha
    rcases h a ha with h1 | h1 <;> simp [h1]
  simp only [applyOperationsToFile, hw, hd]
  rw [dif_neg (by simp)]
  rw [if_neg (by simp)]
  rw [foldl_applyLineOpStep_fst]

/-- Witness for C2 on a 3-line fixture with one insert and one exact
delete. -/
theorem lineOpsDescendingSequential_witness :
    (applyOperationsToFile "f.py" "a\nb\nc"
      [⟨"delete_at_line", "f.py", 3, "c"⟩, ⟨"write_at_line", "f.py", 2, "X"⟩]).1 =
      joinNl ((sortByLineDesc
          ([⟨"delete_at_line", "f.py", 3, "c"⟩,
              ⟨"write_at_line", "f.py", 2, "X"⟩].filter
            (fun op => op.operation = "write_at_line") ++
          [⟨"delete_at_line", "f.py", 3, "c"⟩,
              ⟨"write_at_line", "f.py", 2, "X"⟩].filter
            (fun op => op.operation = "delete_at_line"))).foldl
        (applyOneLineOp "f.py") (splitLines "a\nb\nc")) :=
  lineOpsDescendingSequential "f.py" "a\nb\nc" _ (by decide)

/-- C3: `DeleteAtLine` removes lines only when the joined candidate
span `[line, line + countLines(content) - 1]` equals the operation's
content exactly; when the line is out of range, the span exceeds the
file length, or the joined span differs from the content, the line
sequence is returned unchanged. -/
theorem deleteAtLineExactGuard (lines : List String) (lineNum : Int)
    (content filename : String) :
    (deleteMatches lines lineNum content →
      (applyDeleteAtLine lines lineNum content filename).1 =
        lines.take (lineNum - 1).toNat ++
          lines.drop (lineNum - 1 + ((splitNl content).length : Int)).toNat) ∧
    (¬ deleteMatches lines lineNum content →
      (applyDeleteAtLine lines lineNum content filename).1 = lines) := by
  constructor
  · intro hm
    obtain ⟨a, b, c, d⟩ := hm
    simp only [applyDeleteAtLine]
    rw [if_neg (by omega), if_neg (by omega), if_pos d]
  · intro hn
    simp only [applyDeleteAtLine]
    split_ifs with h1 h2 h3
    · rfl
    · rfl
    · exact absurd ⟨by omega, by omega, by omega, h3⟩ hn
    · rfl

/-- Witness for C3: deleting line 2 of a 3-line file with matching
content removes exactly that line (and a mismatching delete at the same
position is checked in the spec's other fixture). -/
theorem deleteAtLineExactGuard_witness :
    (applyDeleteAtLine ["a", "b", "c"] 2 "b" "f.py").1 = ["a", "c"] := by
  rw [(deleteAtLineExactGuard ["a", "b", "c"] 2 "b" "f.py").1 (by decide)]
  decide

/-- C4: `InsertAtLine` with `1 ≤ line ≤ len+1` splices the operation's
content, split on line breaks, in before position `line` (line 1
prepends, line len+1 appends); any other line number is a no-op that
leaves the sequence unchanged and is reported as a non-fatal
`InvalidLineRange` diagnostic. -/
theorem insertAtLineRange (lines : List String) (lineNum : Int)
    (content filename : String) :
    (1 ≤ lineNum ∧ lineNum ≤ (lines.length : Int) + 1 →
      applyWriteAtLine lines lineNum content filename =
        (lines.take (lineNum - 1).toNat ++ splitNl content ++
          lines.drop (lineNum - 1).toNat, [])) ∧
    (¬ (1 ≤ lineNum ∧ lineNum ≤ (lines.length : Int) + 1) →
      applyWriteAtLine lines lineNum content filename =
        (lines, [.invalidLineRangeInsert filename lineNum])) := by
  by_cases h1 : lineNum < 1 ∨ (lines.length : Int) + 1 < lineNum
  · constructor
    · intro hm
      omega
    · intro _
      simp [applyWriteAtLine, h1]
  · constructor
    · intro _
      simp [applyWriteAtLine, h1]
    · intro hn
      exact absurd ⟨by omega, by omega⟩ hn

/-- Witness for C4 on the spec's 3-line fixture: inserting at line
`len+1 = 4` appends. -/
theorem insertAtLineRange_witness :
    applyWriteAtLine ["a", "b", "c"] 4 "d" "f.py" = (["a", "b", "c", "d"], []) := by
  rw [(insertAtLineRange ["a", "b", "c"] 4 "d" "f.py").1 (by decide)]
  decide

/-! ## Claims about the revision controller -/

theorem runLoop_always_revise (review : Nat → ReviewOutcome)
    (hrev : ∀ i, ∃ next, review i = .revise next ∧ next ≠ []) :
    ∀ (fuel iteration applied : Nat) (pending : List Instr), pending ≠ [] →
      runLoop review fuel iteration applied pending = ⟨applied + fuel, .exhausted⟩ := by
  intro fuel
  induction fuel with
  | zero =>
    intro it ap p hp
    simp [runLoop]
  | succ n ih =>
    intro it ap p hp
    obtain ⟨next, hr, hne⟩ := hrev it
    simp only [runLoop, hr]
    rw [if_neg (by simpa using hp), if_neg (by simpa using hne)]
    rw [ih (it + 1) (ap + 1) next hne]
    congr 1
    omega

/-- C5: a controller whose oracle review returns `Revise` with a
non-empty operation set on every iteration performs exactly
`MAX_ITERATIONS` applied iterations (one commit batch per loop pass)
and terminates in the `Exhausted` state, never exceeding the bound. -/
theorem controllerExhaustsAtMax (review : Nat → ReviewOutcome)
    (initial : List Instr) (maxIter : Nat)
    (hrev : ∀ i, ∃ next, review i = .revise next ∧ next ≠ [])
    (hinit : initial ≠ []) :
    runController review initial maxIter = ⟨maxIter, .exhausted⟩ := by
  unfold runController
  rw [runLoop_always_revise review hrev maxIter 1 0 initial hinit]
  simp

/-- Witness for C5 at the configured default `MAX_ITERATIONS = 10`. -/
theorem controllerExhaustsAtMax_witness :
    runController (fun _ => .revise [⟨"write", "f.py", 0, "x"⟩])
      [⟨"write", "f.py", 0, "x"⟩] MAX_ITERATIONS =
      ⟨MAX_ITERATIONS, .exhausted⟩ :=
  controllerExhaustsAtMax _ _ _ (fun _ => ⟨_, rfl, by decide⟩) (by decide)

/-! ## Claims about the snapshot store adapter -/

theorem mem_uploadActions_not_read (respOk : String → Bool) :
    ∀ (files : List FinalFile) (acc : List StoreAction × List UploadResult),
      (∀ a ∈ acc.1, isReadAction a = false) →
      ∀ a ∈ (files.foldl (fun acc f =>
          let r := uploadStep respOk f
          (acc.1 ++ r.1, acc.2 ++ [r.2])) acc).1, isReadAction a = false := by
  intro files
  induction files with
  | nil =>
    intro acc hacc a ha
    exact hacc a ha
  | cons f fs ih =>
    intro acc hacc a ha
    refine ih _ ?_ a ha
    intro b hb
    rcases List.mem_append.mp hb with hb | hb
    · exact hacc b hb
    · revert hb
      unfold uploadStep
      by_cases hc : f.content = ""
      · cases hsha : f.sha <;> simp [hc, hsha] <;> (rintro rfl; rfl)
      · cases hsha : f.sha <;> simp [hc, hsha] <;> (rintro rfl; rfl)

/-- C9: within one controller iteration, the store-action trace of
`apply_instructions` is a block of per-file reads followed by a block
of commits (writes and deletes): every read precedes every write, so
each operation batch observes the pre-iteration snapshot and never sees
a sibling operation's partial results. -/
theorem readsBeforeCommits (store : String → Option (String × String))
    (respOk : String → Bool) (instructions : List Instr) :
    ∃ reads commits,
      applyInstructionsActions store respOk instructions = reads ++ commits ∧
      (∀ a ∈ reads, isReadAction a = true) ∧
      (∀ a ∈ commits, isReadAction a = false) := by
  by_cases hempty : instructions.isEmpty
  · refine ⟨[], [], ?_, by simp, by simp⟩
    simp [applyInstructionsActions, hempty]
  · refine ⟨processFileOperationsReads instructions,
      (uploadFinalFiles respOk (processFileOperations store instructions)).1,
      ?_, ?_, ?_⟩
    · simp [applyInstructionsActions, hempty]
    · intro a ha
      simp only [processFileOperationsReads, List.mem_map] at ha
      obtain ⟨g, _, rfl⟩ := ha
      rfl
    · intro a ha
      exact mem_uploadActions_not_read respOk
        (processFileOperations store instructions) ([], []) (by simp) a ha

theorem mem_uploadActions_not_emptyPut (respOk : String → Bool) :
    ∀ (files : List FinalFile) (acc : List StoreAction × List UploadResult),
      (∀ a ∈ acc.1, isEmptyPut a = false) →
      ∀ a ∈ (files.foldl (fun acc f =>
          let r := uploadStep respOk f
          (acc.1 ++ r.1, acc.2 ++ [r.2])) acc).1, isEmptyPut a = false := by
  intro files
  induction files with
  | nil =>
    intro acc hacc a ha
    exact hacc a ha
  | cons f fs ih =>
    intro acc hacc a ha
    refine ih _ ?_ a ha
    intro b hb
    rcases List.mem_append.mp hb with hb | hb
    · exact hacc b hb
    · revert hb
      unfold uploadStep
      by_cases hc : f.content = ""
      · cases hsha : f.sha <;> simp [hc, hsha] <;> (rintro rfl; simp [isEmptyPut, hc])
      · cases hsha : f.sha <;> simp [hc, hsha] <;> (rintro rfl; simp [isEmptyPut, hc])

/-- C10: every computed final file with empty content is treated as
delete-intent by the commit step — with a known sha a delete request is
issued, with no sha no request is issued and the operation is recorded
as a failure — and consequently the store-action trace of any
instruction set (including a Write of the empty string) never contains
a create or update carrying empty content. -/
theorem emptyContentDeleteIntent (store : String → Option (String × String))
    (respOk : String → Bool) (instructions : List Instr) :
    (∀ a ∈ applyInstructionsActions store respOk instructions,
      isEmptyPut a = false) ∧
    (∀ f ∈ processFileOperations store instructions, f.content = "" →
      (∀ sha, f.sha = some sha →
        uploadStep respOk f =
          ([.deleteFile f.file sha], ⟨respOk f.file, "delete"⟩)) ∧
      (f.sha = none →
        uploadStep respOk f = ([], ⟨false, "delete (skip)"⟩))) := by
  constructor
  · intro a ha
    by_cases hempty : instructions.isEmpty
    · simp [applyInstructionsActions, hempty] at ha
    · simp only [applyInstructionsActions, hempty, if_neg, Bool.false_eq_true,
        ite_false] at ha
      rcases List.mem_append.mp ha with ha | ha
      · simp only [processFileOperationsReads, List.mem_map] at ha
        obtain ⟨g, _, rfl⟩ := ha
        rfl
      · exact mem_uploadActions_not_emptyPut respOk
          (processFileOperations store instructions) ([], []) (by simp) a ha
  · intro f _ hc
    constructor
    · intro sha hsha
      unfold uploadStep
      rw [if_pos hc, hsha]
    · intro hsha
      unfold uploadStep
      rw [if_pos hc, hsha]

/-- Witness for C10: a Write of the empty string against an existing
file ends as a delete request, and the same computed file with no prior
sha produces no request and a failed result. -/
theorem emptyContentDeleteIntent_witness :
    uploadStep (fun _ => true) ⟨"a.py", "", some "sha1"⟩ =
      ([.deleteFile "a.py" "sha1"], ⟨true, "delete"⟩) :=
  ((emptyContentDeleteIntent (fun _ => some ("old", "sha1")) (fun _ => true)
      [⟨"write", "a.py", 0, ""⟩]).2
    ⟨"a.py", "", some "sha1"⟩ (by decide) rfl).1 "sha1" rfl

/-! ## Claims about malformed-operation handling -/

theorem joinNl_splitLines (s : String) : joinNl (splitLines s) = s := by
  unfold splitLines
  by_cases h : s = ""
  · rw [if_pos h, h]
    decide
  · rw [if_neg h]
    exact joinNl_splitNl s

/-- C8 counterexample: an operation with the unknown kind
`"frobnicate"` is not rejected with any error — the engine returns the
content unchanged and logs no diagnostic at all, i.e. the operation is
silently dropped. -/
theorem malformedOpSilentDrop_counterexample :
    ¬ ((applyOperationsToFile "f.py" "a\nb"
          [⟨"frobnicate", "f.py", 1, "x"⟩]).1 ≠ "a\nb" ∨
        (applyOperationsToFile "f.py" "a\nb"
          [⟨"frobnicate", "f.py", 1, "x"⟩]).2 ≠ []) := by
  decide

/-- C8 (amended): operations are not validated anywhere — an operation
set consisting of unknown kinds is silently dropped by the engine,
leaving the content unchanged and emitting no diagnostic; there is no
`MalformedOperation` error in the code (and a missing required field
raises an uncaught `KeyError` instead). -/
theorem unknownKindsSilentlyDropped (filename content : String)
    (ops : List Instr)
    (h : ∀ op ∈ ops, op.operation ≠ "write" ∧ op.operation ≠ "delete" ∧
        op.operation ≠ "write_at_line" ∧ op.operation ≠ "delete_at_line") :
    applyOperationsToFile filename content ops = (content, []) := by
  have hw : ops.filter (fun op => op.operation = "write") = [] := by
    simp only [List.filter_eq_nil_iff]
    intro a ha
    simpa using (h a ha).1
  have hd : ops.filter (fun op => op.operation = "delete") = [] := by
    simp only [List.filter_eq_nil_iff]
    intro a ha
    simpa using (h a ha).2.1
  have hwl : ops.filter (fun op => op.operation = "write_at_line") = [] := by
    simp only [List.filter_eq_nil_iff]
    intro a ha
    simpa using (h a ha).2.2.1
  have hdl : ops.filter (fun op => op.operation = "delete_at_line") = [] := by
    simp only [List.filter_eq_nil_iff]
    intro a ha
    simpa using (h a ha).2.2.2
  simp only [applyOperationsToFile, hw, hd, hwl, hdl]
  rw [dif_neg (by simp), if_neg (by simp)]
  simp only [List.append_nil, sortByLineDesc, List.foldr_nil, List.foldl_nil]
  rw [joinNl_splitLines]

/-- Witness for the amended C8 at a concrete unknown-kind operation. -/
theorem unknownKindsSilentlyDropped_witness :
    applyOperationsToFile "g.py" "x\ny" [⟨"rename", "g.py", 2, "z"⟩] =
      ("x\ny", []) :=
  unknownKindsSilentlyDropped "g.py" "x\ny" _ (by decide)

/-! ## Claims about the deployment poller -/

theorem monitorLoop_no_terminal (getLatest : Nat → Option Deployment)
    (dLogs bLogs : String → String) (pinnedId : String)
    (hnoterm : ∀ k d, getLatest k = some d → isTerminalStatus d.status = false) :
    ∀ (remTicks callIdx : Nat),
      monitorLoop getLatest dLogs bLogs pinnedId callIdx remTicks =
        ⟨none, "TIMEOUT", "Deployment monitoring timeout",
          "No build logs available"⟩ := by
  intro remTicks
  induction remTicks with
  | zero => intro callIdx; rfl
  | succ n ih =>
    intro callIdx
    cases hg : getLatest callIdx with
    | none =>
      simp only [monitorLoop, hg]
      exact ih (callIdx + 1)
    | some d =>
      simp only [monitorLoop, hg]
      by_cases hid : d.id = pinnedId
      · rw [if_pos hid, if_neg (by simp [hnoterm callIdx d hg])]
        exact ih (callIdx + 1)
      · rw [if_neg hid]
        exact ih (callIdx + 1)

theorem searchLoop_no_terminal (getLatest : Nat → Option Deployment)
    (dLogs bLogs : String → String)
    (hnoterm : ∀ k d, getLatest k = some d → isTerminalStatus d.status = false) :
    ∀ (remTicks callIdx : Nat),
      searchLoop getLatest dLogs bLogs callIdx remTicks =
        ⟨none, "TIMEOUT", "Deployment monitoring timeout",
          "No build logs available"⟩ ∨
      searchLoop getLatest dLogs bLogs callIdx remTicks =
        ⟨none, "TIMEOUT", "No deployment started within timeout period",
          "No build logs available"⟩ := by
  intro remTicks
  induction remTicks with
  | zero => intro callIdx; right; rfl
  | succ n ih =>
    intro callIdx
    cases hg : getLatest callIdx with
    | none =>
      simp only [searchLoop, hg]
      exact ih (callIdx + 1)
    | some d =>
      simp only [searchLoop, hg]
      left
      exact monitorLoop_no_terminal getLatest dLogs bLogs d.id hnoterm
        (n + 1) (callIdx + 1)

/-- C6 counterexample: with a platform that forever reports a
non-terminal deployment and log endpoints that do have retrievable
text, the timed-out poller's result does not carry those logs — it
returns fixed placeholder strings instead. -/
theorem pollerTimeoutLogs_counterexample :
    ¬ ((waitForDeploymentCompletion (fun _ => some ⟨"A", "BUILDING", "t0"⟩)
          (fun _ => "retrievable deployment logs")
          (fun _ => "retrievable build logs") 3).status = "TIMEOUT" ∧
        (waitForDeploymentCompletion (fun _ => some ⟨"A", "BUILDING", "t0"⟩)
          (fun _ => "retrievable deployment logs")
          (fun _ => "retrievable build logs") 3).deployment_logs =
          "retrievable deployment logs" ∧
        (waitForDeploymentCompletion (fun _ => some ⟨"A", "BUILDING", "t0"⟩)
          (fun _ => "retrievable deployment logs")
          (fun _ => "retrievable build logs") 3).build_logs =
          "retrievable build logs") := by
  decide

/-- C6 (amended): when no polled deployment ever reports a terminal
status within the tick budget, `wait_for_deployment_completion` returns
a result (never raises) whose status is the synthesized `TIMEOUT`, with
no deployment id and with fixed placeholder log strings — it does not
fetch the logs that would have been retrievable for the pinned
deployment. -/
theorem pollerTimeoutPlaceholders (getLatest : Nat → Option Deployment)
    (dLogs bLogs : String → String) (maxTicks : Nat)
    (hnoterm : ∀ k d, getLatest k = some d → isTerminalStatus d.status = false) :
    (waitForDeploymentCompletion getLatest dLogs bLogs maxTicks).id = none ∧
    (waitForDeploymentCompletion getLatest dLogs bLogs maxTicks).status =
      "TIMEOUT" ∧
    ((waitForDeploymentCompletion getLatest dLogs bLogs maxTicks).deployment_logs =
        "Deployment monitoring timeout" ∨
      (waitForDeploymentCompletion getLatest dLogs bLogs maxTicks).deployment_logs =
        "No deployment started within timeout period") ∧
    (waitForDeploymentCompletion getLatest dLogs bLogs maxTicks).build_logs =
      "No build logs available" := by
  cases hg : getLatest 0 with
  | none =>
    simp only [waitForDeploymentCompletion, hg]
    rcases searchLoop_no_terminal getLatest dLogs bLogs hnoterm maxTicks 1 with h | h
    · rw [h]
      exact ⟨rfl, rfl, Or.inl rfl, rfl⟩
    · rw [h]
      exact ⟨rfl, rfl, Or.inr rfl, rfl⟩
  | some d =>
    simp only [waitForDeploymentCompletion, hg]
    rw [monitorLoop_no_terminal getLatest dLogs bLogs d.id hnoterm maxTicks 1]
    exact ⟨rfl, rfl, Or.inl rfl, rfl⟩

/-- Witness for the amended C6 on a concrete never-terminal trace. -/
theorem pollerTimeoutPlaceholders_witness :
    (waitForDeploymentCompletion (fun _ => some ⟨"A", "BUILDING", "t0"⟩)
      (fun _ => "dl") (fun _ => "bl") 3).status = "TIMEOUT" :=
  (pollerTimeoutPlaceholders (fun _ => some ⟨"A", "BUILDING", "t0"⟩)
    (fun _ => "dl") (fun _ => "bl") 3
    (fun _ d h => by
      injection h with h'
      rw [← h']
      decide)).2.1

theorem monitorLoop_stale_id (getLatest : Nat → Option Deployment)
    (dLogs bLogs : String → String) (pinnedId : String) :
    ∀ (remTicks callIdx : Nat),
      (∀ k, callIdx ≤ k → ∀ d, getLatest k = some d → d.id ≠ pinnedId) →
      monitorLoop getLatest dLogs bLogs pinnedId callIdx remTicks =
        ⟨none, "TIMEOUT", "Deployment monitoring timeout",
          "No build logs available"⟩ := by
  intro remTicks
  induction remTicks with
  | zero => intro callIdx _; rfl
  | succ n ih =>
    intro callIdx hdiff
    cases hg : getLatest callIdx with
    | none =>
      simp only [monitorLoop, hg]
      exact ih (callIdx + 1) (fun k hk d h => hdiff k (by omega) d h)
    | some d =>
      simp only [monitorLoop, hg]
      rw [if_neg (hdiff callIdx (Nat.le_refl _) d hg)]
      exact ih (callIdx + 1) (fun k hk d h => hdiff k (by omega) d h)

/-- C7 counterexample: the latest deployment id changes from the pinned
"A" to "B" after the first poll and "B" reports the terminal status
SUCCESS on every subsequent poll; a re-pinning poller would track "B"
to SUCCESS, but the code's result carries neither id "B" nor status
SUCCESS — it times out against the stale pin. -/
theorem pollerRepin_counterexample :
    ¬ ((waitForDeploymentCompletion
          (fun k => if k = 0 then some ⟨"A", "BUILDING", "t0"⟩
            else some ⟨"B", "SUCCESS", "t1"⟩)
          (fun _ => "dl") (fun _ => "bl") 3).id = some "B" ∧
        (waitForDeploymentCompletion
          (fun k => if k = 0 then some ⟨"A", "BUILDING", "t0"⟩
            else some ⟨"B", "SUCCESS", "t1"⟩)
          (fun _ => "dl") (fun _ => "bl") 3).status = "SUCCESS") := by
  decide

/-- C7 (amended): the poller never re-pins — the pinned deployment id
stays fixed for the whole monitoring loop; a tick whose latest
deployment id differs from the pinned one is skipped without any status
comparison, and if the latest id never again equals the pinned id the
poller runs out its budget and returns the synthesized TIMEOUT result.
-/
theorem pollerNeverRepins (getLatest : Nat → Option Deployment)
    (dLogs bLogs : String → String) (maxTicks : Nat) (d0 : Deployment)
    (h0 : getLatest 0 = some d0)
    (hdiff : ∀ k, 1 ≤ k → ∀ d, getLatest k = some d → d.id ≠ d0.id) :
    waitForDeploymentCompletion getLatest dLogs bLogs maxTicks =
      ⟨none, "TIMEOUT", "Deployment monitoring timeout",
        "No build logs available"⟩ := by
  simp only [waitForDeploymentCompletion, h0]
  exact monitorLoop_stale_id getLatest dLogs bLogs d0.id maxTicks 1 hdiff

/-- Witness for the amended C7 on the id-change trace used in the
counterexample. -/
theorem pollerNeverRepins_witness :
    waitForDeploymentCompletion
      (fun k => if k = 0 then some ⟨"A", "BUILDING", "t0"⟩
        else some ⟨"B", "SUCCESS", "t1"⟩)
      (fun _ => "dl") (fun _ => "bl") 3 =
      ⟨none, "TIMEOUT", "Deployment monitoring timeout",
        "No build logs available"⟩ :=
  pollerNeverRepins _ _ _ 3 ⟨"A", "BUILDING", "t0"⟩ rfl
    (fun k hk d h => by
      have hk0 : ¬ k = 0 := by omega
      have h2 : (if k = 0 then some (⟨"A", "BUILDING", "t0"⟩ : Deployment)
          else some ⟨"B", "SUCCESS", "t1"⟩) = some d := h
      rw [if_neg hk0] at h2
      injection h2 with h'
      rw [← h']
      decide)

/-- Witness for C9 on a concrete instruction batch against a concrete
store. -/
theorem readsBeforeCommits_witness :
    ∃ reads commits,
      applyInstructionsActions (fun _ => some ("old", "sha1")) (fun _ => true)
        [⟨"write", "a.py", 0, "new"⟩] = reads ++ commits ∧
      (∀ a ∈ reads, isReadAction a = true) ∧
      (∀ a ∈ commits, isReadAction a = false) :=
  readsBeforeCommits (fun _ => some ("old", "sha1")) (fun _ => true)
    [⟨"write", "a.py", 0, "new"⟩]
